import Mathlib

/-!
Shallow embedding of `src/ransac.cpp` (namespace `ransac`): a RANSAC line
extractor over angularly sorted 2D scan points.  Floating-point values are
modelled by exact rationals; machine `int` indices and sizes by `Nat`
(the code only ever uses non-negative values there).  Arrays are modelled
by `List` with explicit `size` boundaries, matching the C++ convention of
an "active" prefix `[0, size)` of a fixed-capacity buffer.
-/

namespace Ransac

/-- A scan point (`node_t` in the source): Cartesian coordinates plus the
polar bearing used for angular-neighbour selection. -/
structure node_t where
  x : ℚ
  y : ℚ
  angle : ℚ
  deriving DecidableEq, Repr, Inhabited

/-- A line in slope-intercept form (`line_t` in the source). -/
structure line_t where
  m : ℚ
  b : ℚ
  deriving DecidableEq, Repr, Inhabited

/-- `line_t::get_x`: solves `y = m*x + b` for `x`, returning 0 when the
slope is exactly zero ("cannot divide by zero" in the source). -/
def line_t.get_x (l : line_t) (y : ℚ) : ℚ :=
  if l.m = 0 then 0 else (y - l.b) / l.m

/-- `line_t::get_y`: evaluates `m*x + b`. -/
def line_t.get_y (l : line_t) (x : ℚ) : ℚ :=
  l.m * x + l.b

/-- `Ransac::dst2_to_line`: squared perpendicular distance from `(x, y)`
to the line, `(|−m·x + y − b|)² / (m² + 1)`. -/
def dst2_to_line (line : line_t) (x y : ℚ) : ℚ :=
  let numerator := |(-line.m * x) + y - line.b|
  (numerator * numerator) / (line.m * line.m + 1)

/-- The points `nodes[start..stop)` summed over by `compute_reg_line`. -/
def reg_points (start stop : Nat) (nodes : List node_t) : List node_t :=
  (nodes.drop start).take (stop - start)

/-- The denominator `n·Σx² − (Σx)²` of the normal equations used by
`compute_reg_line` over `nodes[start..stop)`. -/
def reg_denom (start stop : Nat) (nodes : List node_t) : ℚ :=
  let pts := reg_points start stop nodes
  ((stop - start : Nat) : ℚ) * (pts.map (fun n => n.x * n.x)).sum
    - (pts.map (fun n => n.x)).sum * (pts.map (fun n => n.x)).sum

/-- `Ransac::compute_reg_line`: closed-form least-squares fit over
`nodes[start..stop)`.  Status code 0 / -1 is modelled as `Option`:
`none` on failure (no points, or singular system). -/
def compute_reg_line (start stop : Nat) (nodes : List node_t) : Option line_t :=
  let node_count := stop - start
  if node_count = 0 then none
  else
    let pts := reg_points start stop nodes
    let x_sum := (pts.map (fun n => n.x)).sum
    let y_sum := (pts.map (fun n => n.y)).sum
    let x2_sum := (pts.map (fun n => n.x * n.x)).sum
    let xy_sum := (pts.map (fun n => n.x * n.y)).sum
    let m_num := (node_count : ℚ) * xy_sum - x_sum * y_sum
    let m_denom := (node_count : ℚ) * x2_sum - x_sum * x_sum
    if m_denom = 0 then none
    else
      let b_num := y_sum * x2_sum - x_sum * xy_sum
      let b_denom := (node_count : ℚ) * x2_sum - x_sum * x_sum
      if b_denom = 0 then none
      else some { m := m_num / m_denom, b := b_num / b_denom }

/-- The shift loop of `Ransac::pop_node`:
`for (i = node; i < size − 1; i++) nodes[i] = nodes[i+1]`, modelled by
recursion on the iteration count `size − 1 − node`. -/
def shift_left (nodes : List node_t) (i : Nat) : Nat → List node_t
  | 0 => nodes
  | count + 1 => shift_left (nodes.set i (nodes.getD (i + 1) default)) (i + 1) count

/-- `Ransac::pop_node`: removes `nodes[node]` from the active range by
shifting everything after it one slot left, stores the removed point at
slot `size − 1`, and decrements `size`. -/
def pop_node (node : Nat) (nodes : List node_t) (size : Nat) : List node_t × Nat :=
  let popped := nodes.getD node default
  let shifted := shift_left nodes node (size - 1 - node)
  (shifted.set (size - 1) popped, size - 1)

/-- The inner scan of `Ransac::restore_trial`:
`select = 0; for (j = 1; j <= i; j++) if (nodes[j].angle > nodes[select].angle) select = j`,
modelled with `fuel` remaining iterations starting at index `j`. -/
def select_max_loop (nodes : List node_t) : Nat → Nat → Nat → Nat
  | select, _, 0 => select
  | select, j, fuel + 1 =>
    let s := if (nodes.getD select default).angle < (nodes.getD j default).angle then j else select
    select_max_loop nodes s (j + 1) fuel

/-- Index of the first maximal-angle element among `nodes[0..i]`. -/
def select_max (nodes : List node_t) (i : Nat) : Nat :=
  select_max_loop nodes 0 1 i

/-- The three-assignment swap in the body of `Ransac::restore_trial`:
`high = nodes[i]; nodes[i] = nodes[select]; nodes[select] = high`. -/
def swap_nodes (nodes : List node_t) (i j : Nat) : List node_t :=
  let high := nodes.getD i default
  (nodes.set i (nodes.getD j default)).set j high

/-- The selection-sort loop of `Ransac::restore_trial`:
`for (i = original_size − 1; i > 0; i--)` select the max of `[0, i]` and
swap it to position `i`.  The argument is the current value of `i`. -/
def restore_loop (nodes : List node_t) : Nat → List node_t
  | 0 => nodes
  | i + 1 => restore_loop (swap_nodes nodes (i + 1) (select_max nodes (i + 1))) i

/-- `Ransac::restore_trial`: selection-sorts `nodes[0, original_size)` by
ascending angle and resets `size` to `original_size`.  The `ref_index`
parameter is unused, exactly as in the source. -/
def restore_trial (nodes : List node_t) (ref_index : Nat) (original_size : Nat) :
    List node_t × Nat :=
  (restore_loop nodes (original_size - 1), original_size)

/-- The ASSOCIATE scan of `Ransac::compute`:
`for (i = size − 1; i >= 0; i--)` pop `nodes[i]` whenever its squared
distance to `line` is at most `eps2`.  The first argument is `i + 1`
(the number of indices still to examine). -/
def associate_loop (line : line_t) (eps2 : ℚ) : Nat → List node_t × Nat → List node_t × Nat
  | 0, st => st
  | i + 1, (nodes, size) =>
    let n := nodes.getD i default
    if dst2_to_line line n.x n.y ≤ eps2 then
      associate_loop line eps2 i (pop_node i nodes size)
    else
      associate_loop line eps2 i (nodes, size)

/-- Construction parameters of `Ransac` (all immutable). -/
structure Config where
  max_trials : Nat
  sample_size : Nat
  sample_deviation : ℚ
  proximity_epsilon : ℚ
  line_consensus : Nat
  deriving Repr

/-- One iteration of the GROW loop of `Ransac::compute`: alternately look
at the left (`i` even) or right (`i` odd) neighbour of the reference
index, pop it when it is distinct from the reference and within
`sample_deviation` of the reference angle, and shift the reference index
left when a lower index was popped.  State is `(ref_index, nodes, size)`. -/
def grow_step (sample_deviation ref_angle : ℚ) (i : Nat)
    (st : Nat × List node_t × Nat) : Nat × List node_t × Nat :=
  let ref_index := st.1
  let nodes := st.2.1
  let size := st.2.2
  let pick := if i % 2 = 0 then (ref_index + size - 1) % size else (ref_index + 1) % size
  if pick ≠ ref_index ∧
      |(nodes.getD pick default).angle - ref_angle| ≤ sample_deviation then
    let p := pop_node pick nodes size
    (if pick < ref_index then ref_index - 1 else ref_index, p.1, p.2)
  else
    st

/-- The GROW loop `for (i = 0; i < sample_size; i++)`, with `fuel`
remaining iterations starting at loop counter `i`. -/
def grow_loop (sample_deviation ref_angle : ℚ) :
    Nat → Nat → Nat × List node_t × Nat → Nat × List node_t × Nat
  | _, 0, st => st
  | i, fuel + 1, st =>
    grow_loop sample_deviation ref_angle (i + 1) fuel
      (grow_step sample_deviation ref_angle i st)

/-- The seed phase of one trial of `Ransac::compute`: choose the reference
index `r % size`, grow the seed cluster, then pop the reference node.
Returns `(ref_index, nodes, size)` after the reference pop. -/
def trial_pre (cfg : Config) (r : Nat) (nodes : List node_t) (size : Nat) :
    Nat × List node_t × Nat :=
  let ref_index := r % size
  let ref_angle := (nodes.getD ref_index default).angle
  let g := grow_loop cfg.sample_deviation ref_angle 0 cfg.sample_size (ref_index, nodes, size)
  let p := pop_node g.1 g.2.1 g.2.2
  (g.1, p.1, p.2)

/-- The FIT_SEED step: fit a line through the freshly popped seed cluster
`[size', original_trial_size)` when it has at least 2 members, else fail
(`line_status = -1`). -/
def trial_fit1 (cfg : Config) (r : Nat) (nodes : List node_t) (size : Nat) : Option line_t :=
  let t := trial_pre cfg r nodes size
  if 2 ≤ size - t.2.2 then compute_reg_line t.2.2 size t.2.1 else none

/-- State `(nodes, size)` after the ASSOCIATE step of one trial (a no-op
when the seed fit failed). -/
def trial_mid (cfg : Config) (r : Nat) (nodes : List node_t) (size : Nat) :
    List node_t × Nat :=
  let t := trial_pre cfg r nodes size
  match trial_fit1 cfg r nodes size with
  | some line =>
    associate_loop line (cfg.proximity_epsilon * cfg.proximity_epsilon) t.2.2 (t.2.1, t.2.2)
  | none => (t.2.1, t.2.2)

/-- The line pushed by one trial, if any: the consensus check
`popped_nodes ≥ line_consensus && line_status == 0` followed by the
FIT_FINAL refit over everything popped during the trial. -/
def trial_result (cfg : Config) (r : Nat) (nodes : List node_t) (size : Nat) :
    Option line_t :=
  let mid := trial_mid cfg r nodes size
  match trial_fit1 cfg r nodes size with
  | some _ =>
    if cfg.line_consensus ≤ size - mid.2 then compute_reg_line mid.2 size mid.1 else none
  | none => none

/-- One whole trial of `Ransac::compute`: on success the popped points
stay consumed and the refit line is returned; on failure
`restore_trial` rolls the active range back to `size`. -/
def run_trial (cfg : Config) (r : Nat) (nodes : List node_t) (size : Nat) :
    List node_t × Nat × Option line_t :=
  let mid := trial_mid cfg r nodes size
  match trial_result cfg r nodes size with
  | some line => (mid.1, mid.2, some line)
  | none =>
    let t := trial_pre cfg r nodes size
    let rst := restore_trial mid.1 t.1 size
    (rst.1, rst.2, none)

/-- The trial loop of `Ransac::compute`
(`while (size > 0 && trial_count < max_trials)`).  The random draw of
trial `t` is `rng t` (the source's `rand()`); the returned tuple is
`(nodes, size, trial_count, reg_lines)` at loop exit. -/
def compute_loop (cfg : Config) (rng : Nat → Nat) (nodes : List node_t) (size : Nat)
    (trial_count : Nat) (lines : List line_t) : List node_t × Nat × Nat × List line_t :=
  if 0 < size ∧ trial_count < cfg.max_trials then
    let t := run_trial cfg (rng trial_count) nodes size
    compute_loop cfg rng t.1 t.2.1 (trial_count + 1)
      (lines ++ (match t.2.2 with | some l => [l] | none => []))
  else
    (nodes, size, trial_count, lines)
termination_by cfg.max_trials - trial_count
decreasing_by simp_wf; omega

/-- `Ransac::compute`: clears `reg_lines`, runs the trial loop, and
returns the final array contents together with the accepted lines. -/
def compute (cfg : Config) (rng : Nat → Nat) (nodes : List node_t) (size : Nat) :
    List node_t × List line_t :=
  let r := compute_loop cfg rng nodes size 0 []
  (r.1, r.2.2.2)

/-! ### Basic facts about `shift_left` and `pop_node` -/

theorem length_shift_left (count : Nat) : ∀ (i : Nat) (nodes : List node_t),
    (shift_left nodes i count).length = nodes.length := by
  induction count with
  | zero => intro i nodes; rfl
  | succ c ih => intro i nodes; rw [shift_left, ih]; simp

theorem shift_left_spec (count : Nat) : ∀ (i : Nat) (nodes : List node_t),
    i + count < nodes.length →
    shift_left nodes i count =
      nodes.take i ++ (nodes.drop (i + 1)).take count ++ nodes.drop (i + count) := by
  induction count with
  | zero =>
    intro i nodes _
    simp [shift_left, List.take_append_drop]
  | succ c ih =>
    intro i nodes h
    have hi : i < nodes.length := by omega
    have hi1 : i + 1 < nodes.length := by omega
    rw [shift_left, ih (i + 1) _ (by simpa using by omega)]
    have hset : nodes.set i (nodes.getD (i + 1) default) =
        nodes.take i ++ nodes.getD (i + 1) default :: nodes.drop (i + 1) :=
      List.set_eq_take_cons_drop _ hi
    have hlt : (nodes.take i).length = i := by simp; omega
    rw [hset]
    rw [List.take_append_eq_append_take, List.drop_append_eq_append_drop,
      List.drop_append_eq_append_drop, hlt]
    have h1 : (nodes.take i).take (i + 1) = nodes.take i := by
      rw [List.take_take]; congr 1; omega
    have h2 : (nodes.getD (i + 1) default :: nodes.drop (i + 1)).take (i + 1 - i) =
        [nodes.getD (i + 1) default] := by
      have : i + 1 - i = 1 := by omega
      rw [this]; rfl
    have h3 : (nodes.take i).drop (i + 1 + 1) = [] := by
      apply List.drop_eq_nil_of_le; simp; omega
    have h4 : (nodes.take i).drop (i + 1 + c) = [] := by
      apply List.drop_eq_nil_of_le; simp; omega
    have h5 : (nodes.getD (i + 1) default :: nodes.drop (i + 1)).drop (i + 1 + 1 - i) =
        nodes.drop (i + 2) := by
      have : i + 1 + 1 - i = 2 := by omega
      rw [this]
      show (nodes.drop (i + 1)).drop 1 = nodes.drop (i + 2)
      rw [List.drop_drop]
    have h6 : (nodes.getD (i + 1) default :: nodes.drop (i + 1)).drop (i + 1 + c - i) =
        nodes.drop (i + (c + 1)) := by
      have : i + 1 + c - i = c + 1 := by omega
      rw [this, List.drop_succ_cons, List.drop_drop]
      congr 1
      omega
    rw [h1, h2, h3, h4, h5, h6]
    have h7 : nodes.drop (i + 1) = nodes.getD (i + 1) default :: nodes.drop (i + 2) := by
      rw [List.getD_eq_getElem _ _ hi1]
      exact List.drop_eq_getElem_cons hi1
    rw [h7]
    simp

theorem pop_node_snd (node : Nat) (nodes : List node_t) (size : Nat) :
    (pop_node node nodes size).2 = size - 1 := rfl

theorem pop_node_fst {node size : Nat} {nodes : List node_t}
    (h1 : node < size) (h2 : size ≤ nodes.length) :
    (pop_node node nodes size).1 =
      nodes.take node ++ (nodes.drop (node + 1)).take (size - 1 - node)
        ++ nodes.getD node default :: nodes.drop size := by
  have hn : node < nodes.length := by omega
  have hcount : node + (size - 1 - node) = size - 1 := by omega
  have hspec := shift_left_spec (size - 1 - node) node nodes (by omega)
  show (shift_left nodes node (size - 1 - node)).set (size - 1) (nodes.getD node default)
      = _
  rw [hspec, hcount]
  have hlen1 : (nodes.take node).length = node := by simp; omega
  have hlen2 : ((nodes.drop (node + 1)).take (size - 1 - node)).length = size - 1 - node := by
    simp; omega
  have hlenA : (nodes.take node ++ (nodes.drop (node + 1)).take (size - 1 - node)).length
      = size - 1 := by
    simp [hlen1, hlen2]; omega
  rw [List.append_assoc, List.set_append]
  rw [if_neg (by rw [hlen1]; omega)]
  rw [hlen1]
  rw [List.set_append]
  rw [if_neg (by rw [hlen2]; omega)]
  rw [hlen2]
  have hidx : size - 1 - node - (size - 1 - node) = 0 := by omega
  rw [hidx]
  have hdecomp : nodes.drop (size - 1) = nodes.getD (size - 1) default :: nodes.drop size := by
    have hlt : size - 1 < nodes.length := by omega
    rw [List.getD_eq_getElem _ _ hlt, List.drop_eq_getElem_cons hlt,
      show size - 1 + 1 = size from by omega]
  rw [hdecomp]
  simp

/-- `nodes.take size` decomposed around position `node`. -/
theorem take_decomp {node size : Nat} {nodes : List node_t}
    (h1 : node < size) (h2 : size ≤ nodes.length) :
    nodes.take size = nodes.take node
      ++ nodes.getD node default :: (nodes.drop (node + 1)).take (size - 1 - node) := by
  have hn : node < nodes.length := by omega
  have h0 : nodes.take size = nodes.take node ++ (nodes.drop node).take (size - node) := by
    have h' := List.take_add nodes node (size - node)
    rw [show node + (size - node) = size from by omega] at h'
    exact h'
  rw [h0]
  congr 1
  rw [List.getD_eq_getElem _ _ hn, List.drop_eq_getElem_cons hn,
    show size - node = (size - 1 - node) + 1 from by omega, List.take_succ_cons]

theorem pop_node_perm {node size : Nat} {nodes : List node_t}
    (h1 : node < size) (h2 : size ≤ nodes.length) :
    ((pop_node node nodes size).1).Perm nodes := by
  rw [pop_node_fst h1 h2]
  conv_rhs => rw [← List.take_append_drop size nodes, take_decomp h1 h2]
  conv_lhs => rw [List.append_assoc]
  conv_rhs => rw [List.append_assoc, List.cons_append]
  exact List.Perm.append_left _ List.perm_middle

theorem pop_node_length {node size : Nat} {nodes : List node_t}
    (h1 : node < size) (h2 : size ≤ nodes.length) :
    ((pop_node node nodes size).1).length = nodes.length :=
  (pop_node_perm h1 h2).length_eq

theorem pop_node_drop {node size : Nat} {nodes : List node_t}
    (h1 : node < size) (h2 : size ≤ nodes.length) :
    ((pop_node node nodes size).1).drop size = nodes.drop size := by
  rw [pop_node_fst h1 h2]
  have hAB : (nodes.take node ++ (nodes.drop (node + 1)).take (size - 1 - node)).length
      = size - 1 := by
    simp; omega
  rw [List.drop_append_eq_append_drop]
  rw [List.drop_eq_nil_of_le (by rw [hAB]; omega), hAB]
  have h1' : size - (size - 1) = 1 := by omega
  rw [h1', List.nil_append, List.drop_succ_cons, List.drop_zero]

theorem pop_node_take_active {node size : Nat} {nodes : List node_t}
    (h1 : node < size) (h2 : size ≤ nodes.length) :
    ((pop_node node nodes size).1).take (size - 1) =
      nodes.take node ++ (nodes.drop (node + 1)).take (size - 1 - node) := by
  rw [pop_node_fst h1 h2]
  rw [show nodes.take node ++ (nodes.drop (node + 1)).take (size - 1 - node)
        ++ nodes.getD node default :: nodes.drop size
      = (nodes.take node ++ (nodes.drop (node + 1)).take (size - 1 - node))
        ++ nodes.getD node default :: nodes.drop size from by simp]
  apply List.take_left'
  simp
  omega

theorem pop_node_active_sublist {node size : Nat} {nodes : List node_t}
    (h1 : node < size) (h2 : size ≤ nodes.length) :
    (((pop_node node nodes size).1).take (size - 1)).Sublist (nodes.take size) := by
  rw [pop_node_take_active h1 h2, take_decomp h1 h2]
  exact List.Sublist.append_left (List.sublist_cons_self _ _) _

/-! ### Facts about `compute_reg_line` -/

/-- The slope numerator `n·Σxy − Σx·Σy` computed by `compute_reg_line`. -/
def reg_num_m (start stop : Nat) (nodes : List node_t) : ℚ :=
  let pts := reg_points start stop nodes
  ((stop - start : Nat) : ℚ) * (pts.map (fun n => n.x * n.y)).sum
    - (pts.map (fun n => n.x)).sum * (pts.map (fun n => n.y)).sum

/-- The intercept numerator `Σy·Σx² − Σx·Σxy` computed by `compute_reg_line`. -/
def reg_num_b (start stop : Nat) (nodes : List node_t) : ℚ :=
  let pts := reg_points start stop nodes
  (pts.map (fun n => n.y)).sum * (pts.map (fun n => n.x * n.x)).sum
    - (pts.map (fun n => n.x)).sum * (pts.map (fun n => n.x * n.y)).sum

theorem compute_reg_line_eq (start stop : Nat) (nodes : List node_t) :
    compute_reg_line start stop nodes =
      if stop - start = 0 then none
      else if reg_denom start stop nodes = 0 then none
      else some { m := reg_num_m start stop nodes / reg_denom start stop nodes,
                  b := reg_num_b start stop nodes / reg_denom start stop nodes } := by
  simp only [compute_reg_line, reg_denom, reg_num_m, reg_num_b]
  split_ifs <;> rfl

theorem reg_points_length {start stop : Nat} {nodes : List node_t}
    (h : stop ≤ nodes.length) :
    (reg_points start stop nodes).length = stop - start := by
  simp [reg_points]
  omega

theorem sum_map_const_x {c : ℚ} : ∀ {l : List node_t}, (∀ p ∈ l, p.x = c) →
    (l.map (fun n => n.x)).sum = l.length * c
      ∧ (l.map (fun n => n.x * n.x)).sum = l.length * (c * c) := by
  intro l
  induction l with
  | nil => intro _; simp
  | cons a t ih =>
    intro h
    have ha := h a (by simp)
    have ht := ih (fun p hp => h p (by simp [hp]))
    simp only [List.map_cons, List.sum_cons, ha, ht.1, ht.2, List.length_cons]
    push_cast
    constructor <;> ring

theorem sum_map_collinear : ∀ {l : List node_t}, (∀ p ∈ l, p.y = 2 * p.x + 3) →
    (l.map (fun n => n.y)).sum = 2 * (l.map (fun n => n.x)).sum + 3 * l.length
      ∧ (l.map (fun n => n.x * n.y)).sum
        = 2 * (l.map (fun n => n.x * n.x)).sum + 3 * (l.map (fun n => n.x)).sum := by
  intro l
  induction l with
  | nil => intro _; simp
  | cons a t ih =>
    intro h
    have ha := h a (by simp)
    have ht := ih (fun p hp => h p (by simp [hp]))
    simp only [List.map_cons, List.sum_cons, ha, ht.1, ht.2, List.length_cons]
    push_cast
    constructor <;> ring

/-- C4: `compute_reg_line` fails exactly on an empty point count or an
exactly-zero denominator `n·Σx² − (Σx)²`; in particular a single point or
a set of points sharing one x-coordinate always fails. -/
theorem compute_reg_line_fail_iff (start stop : Nat) (nodes : List node_t) (c : ℚ) :
    (compute_reg_line start stop nodes = none ↔
      stop - start = 0 ∨ reg_denom start stop nodes = 0)
    ∧ (stop - start = 1 → compute_reg_line start stop nodes = none)
    ∧ (stop ≤ nodes.length → (∀ p ∈ reg_points start stop nodes, p.x = c) →
        compute_reg_line start stop nodes = none) := by
  have hiff : compute_reg_line start stop nodes = none ↔
      stop - start = 0 ∨ reg_denom start stop nodes = 0 := by
    rw [compute_reg_line_eq]
    split_ifs <;> simp_all
  refine ⟨hiff, ?_, ?_⟩
  · intro h1
    refine hiff.mpr (Or.inr ?_)
    have hlen : (reg_points start stop nodes).length ≤ 1 := by
      simp only [reg_points, List.length_take, List.length_drop]
      omega
    rcases hl : reg_points start stop nodes with _ | ⟨p, rest⟩
    · simp [reg_denom, hl]
    · have hlen2 : (p :: rest).length ≤ 1 := hl ▸ hlen
      have hrest : rest = [] := by
        cases rest with
        | nil => rfl
        | cons q t => simp at hlen2
      subst hrest
      simp only [reg_denom, hl, h1, List.map_cons, List.map_nil, List.sum_cons,
        List.sum_nil, Nat.cast_one]
      ring
  · intro hle hall
    refine hiff.mpr (Or.inr ?_)
    have hs := sum_map_const_x hall
    have hlen := @reg_points_length start stop nodes hle
    simp only [reg_denom, hs.1, hs.2, hlen]
    ring

/-- C5: on success `compute_reg_line` returns exactly the normal-equation
slope and intercept, and on any point set lying exactly on `y = 2x + 3`
with a nonsingular system it returns the line `y = 2x + 3`. -/
theorem compute_reg_line_success_spec :
    (∀ (start stop : Nat) (nodes : List node_t) (line : line_t),
      compute_reg_line start stop nodes = some line →
        line.m = reg_num_m start stop nodes / reg_denom start stop nodes
          ∧ line.b = reg_num_b start stop nodes / reg_denom start stop nodes)
    ∧ (∀ (start stop : Nat) (nodes : List node_t),
        stop ≤ nodes.length →
        (∀ p ∈ reg_points start stop nodes, p.y = 2 * p.x + 3) →
        reg_denom start stop nodes ≠ 0 →
        compute_reg_line start stop nodes = some { m := 2, b := 3 }) := by
  constructor
  · intro start stop nodes line h
    rw [compute_reg_line_eq] at h
    split_ifs at h with h1 h2
    exact ⟨by rw [← Option.some_inj.mp h], by rw [← Option.some_inj.mp h]⟩
  · intro start stop nodes hle hall hden
    have hcol := sum_map_collinear hall
    have hlen := @reg_points_length start stop nodes hle
    have hcount : stop - start ≠ 0 := by
      intro h0
      apply hden
      have : reg_points start stop nodes = [] := by
        apply List.eq_nil_of_length_eq_zero
        rw [hlen, h0]
      simp [reg_denom, this, h0]
    rw [compute_reg_line_eq, if_neg hcount, if_neg hden]
    have hm : reg_num_m start stop nodes = 2 * reg_denom start stop nodes := by
      simp only [reg_num_m, reg_denom, hcol.1, hcol.2, hlen]
      ring
    have hb : reg_num_b start stop nodes = 3 * reg_denom start stop nodes := by
      simp only [reg_num_b, reg_denom, hcol.1, hcol.2, hlen]
      ring
    rw [hm, hb]
    congr 1
    refine line_t.mk.injEq _ _ _ _ ▸ ?_
    constructor
    · field_simp
    · field_simp

/-- C10: `line_t::get_x` returns 0 when the slope is exactly zero and
`(y − b) / m` otherwise. -/
theorem get_x_spec (l : line_t) (y : ℚ) :
    (l.m = 0 → l.get_x y = 0) ∧ (l.m ≠ 0 → l.get_x y = (y - l.b) / l.m) := by
  constructor <;> intro h <;> simp [line_t.get_x, h]

theorem get_x_spec_witness :
    (line_t.get_x { m := 0, b := 5 } 7 = 0)
      ∧ (line_t.get_x { m := 2, b := 3 } 7 = (7 - 3) / 2) :=
  ⟨(get_x_spec { m := 0, b := 5 } 7).1 rfl,
   (get_x_spec { m := 2, b := 3 } 7).2 (by norm_num)⟩

/-- C7: for `node < size ≤ |nodes|`, `pop_node` shifts the points after
`node` one slot left, stores the removed point at slot `size − 1`,
decrements the size, leaves the prefix below `node` and the points at
indices ≥ `size` unchanged, and keeps the remaining active points in
their relative order (the new active range is a sublist of the old). -/
theorem pop_node_spec {node size : Nat} {nodes : List node_t}
    (h1 : node < size) (h2 : size ≤ nodes.length) :
    (pop_node node nodes size).1 =
        nodes.take node ++ (nodes.drop (node + 1)).take (size - 1 - node)
          ++ nodes.getD node default :: nodes.drop size
      ∧ (pop_node node nodes size).2 = size - 1
      ∧ ((pop_node node nodes size).1).take node = nodes.take node
      ∧ ((pop_node node nodes size).1).drop size = nodes.drop size
      ∧ (((pop_node node nodes size).1).take (size - 1)).Sublist (nodes.take size)
      ∧ ((pop_node node nodes size).1).Perm nodes := by
  refine ⟨pop_node_fst h1 h2, pop_node_snd node nodes size, ?_,
    pop_node_drop h1 h2, pop_node_active_sublist h1 h2, pop_node_perm h1 h2⟩
  have hmin : ((pop_node node nodes size).1).take node
      = (((pop_node node nodes size).1).take (size - 1)).take node := by
    rw [List.take_take]
    congr 1
    omega
  rw [hmin, pop_node_take_active h1 h2, List.take_append_eq_append_take, List.take_take]
  have hl : (nodes.take node).length = node := by simp; omega
  rw [hl]
  simp

theorem compute_reg_line_fail_iff_witness :
    compute_reg_line 0 1 [{ x := 1, y := 5, angle := 0 }] = none
      ∧ compute_reg_line 0 2
          [{ x := 4, y := 1, angle := 0 }, { x := 4, y := 7, angle := 1 }] = none :=
  ⟨(compute_reg_line_fail_iff 0 1 [{ x := 1, y := 5, angle := 0 }] 1).2.1 rfl,
   (compute_reg_line_fail_iff 0 2
      [{ x := 4, y := 1, angle := 0 }, { x := 4, y := 7, angle := 1 }] 4).2.2
      (by decide) (by simp [reg_points])⟩

theorem compute_reg_line_success_spec_witness :
    compute_reg_line 0 2 [{ x := 0, y := 3, angle := 0 }, { x := 1, y := 5, angle := 1 }]
        = some { m := 2, b := 3 }
      ∧ ((2 : ℚ) = reg_num_m 0 2 [{ x := 0, y := 3, angle := 0 }, { x := 1, y := 5, angle := 1 }]
            / reg_denom 0 2 [{ x := 0, y := 3, angle := 0 }, { x := 1, y := 5, angle := 1 }]
          ∧ (3 : ℚ) = reg_num_b 0 2 [{ x := 0, y := 3, angle := 0 }, { x := 1, y := 5, angle := 1 }]
            / reg_denom 0 2 [{ x := 0, y := 3, angle := 0 }, { x := 1, y := 5, angle := 1 }]) :=
  ⟨compute_reg_line_success_spec.2 0 2
      [{ x := 0, y := 3, angle := 0 }, { x := 1, y := 5, angle := 1 }]
      (by decide) (by simp [reg_points]; norm_num) (by norm_num [reg_denom, reg_points]),
   compute_reg_line_success_spec.1 0 2
      [{ x := 0, y := 3, angle := 0 }, { x := 1, y := 5, angle := 1 }]
      { m := 2, b := 3 }
      (compute_reg_line_success_spec.2 0 2
        [{ x := 0, y := 3, angle := 0 }, { x := 1, y := 5, angle := 1 }]
        (by decide) (by simp [reg_points]; norm_num) (by norm_num [reg_denom, reg_points]))⟩

/-- Concrete four-point array used to exercise `pop_node`. -/
def wpop : List node_t :=
  [{ x := 0, y := 0, angle := 0 }, { x := 1, y := 1, angle := 1 },
   { x := 2, y := 2, angle := 2 }, { x := 3, y := 3, angle := 3 }]

theorem pop_node_spec_witness :
    (pop_node 1 wpop 3).1 =
        wpop.take 1 ++ (wpop.drop 2).take 1 ++ wpop.getD 1 default :: wpop.drop 3
      ∧ (pop_node 1 wpop 3).2 = 2
      ∧ ((pop_node 1 wpop 3).1).take 1 = wpop.take 1
      ∧ ((pop_node 1 wpop 3).1).drop 3 = wpop.drop 3
      ∧ (((pop_node 1 wpop 3).1).take 2).Sublist (wpop.take 3)
      ∧ ((pop_node 1 wpop 3).1).Perm wpop :=
  pop_node_spec (by decide) (by decide)

/-! ### The ASSOCIATE scan -/

theorem length_filter_partition (p : node_t → Bool) : ∀ (l : List node_t),
    (l.filter p).length + (l.filter (fun a => !p a)).length = l.length := by
  intro l
  induction l with
  | nil => rfl
  | cons a t ih =>
    by_cases h : p a <;> simp [List.filter_cons, h, ← ih] <;> omega

theorem take_succ_getD {k : Nat} {nodes : List node_t} (h : k < nodes.length) :
    nodes.take (k + 1) = nodes.take k ++ [nodes.getD k default] := by
  rw [List.take_add, List.drop_eq_getElem_cons h, List.getD_eq_getElem _ _ h]
  rfl

theorem associate_loop_spec (line : line_t) (eps2 : ℚ) :
    ∀ (k : Nat) (nodes : List node_t) (size : Nat), k ≤ size → size ≤ nodes.length →
    associate_loop line eps2 k (nodes, size) =
      ((nodes.take k).filter (fun n => !(dst2_to_line line n.x n.y ≤ eps2 : Bool))
        ++ (nodes.drop k).take (size - k)
        ++ (nodes.take k).filter (fun n => (dst2_to_line line n.x n.y ≤ eps2 : Bool))
        ++ nodes.drop size,
       size - ((nodes.take k).filter
         (fun n => (dst2_to_line line n.x n.y ≤ eps2 : Bool))).length) := by
  intro k
  induction k with
  | zero =>
    intro nodes size _ _
    simp [associate_loop, List.take_append_drop]
  | succ k ih =>
    intro nodes size hk hs
    have hklen : k < nodes.length := by omega
    have hn := take_succ_getD hklen
    by_cases hc : dst2_to_line line (nodes.getD k default).x (nodes.getD k default).y ≤ eps2
    · -- the point at index k is close: it is popped
      have hstep : associate_loop line eps2 (k + 1) (nodes, size)
          = associate_loop line eps2 k (pop_node k nodes size) := by
        simp only [associate_loop, hc, decide_True, if_true, ite_true]
      rw [hstep]
      have h1 : k < size := by omega
      have hpair : pop_node k nodes size = ((pop_node k nodes size).1, size - 1) := rfl
      rw [hpair, ih _ _ (by omega) (by rw [pop_node_length h1 hs]; omega)]
      have hfst := pop_node_fst h1 hs
      have hlenA : (nodes.take k).length = k := by simp; omega
      have hlenS : ((nodes.drop (k + 1)).take (size - 1 - k)).length = size - 1 - k := by
        simp; omega
      have htk : ((pop_node k nodes size).1).take k = nodes.take k := by
        rw [hfst, List.append_assoc]
        exact List.take_left' hlenA
      have hdk : ((pop_node k nodes size).1).drop k
          = (nodes.drop (k + 1)).take (size - 1 - k)
            ++ nodes.getD k default :: nodes.drop size := by
        rw [hfst, List.append_assoc]
        exact List.drop_left' hlenA
      have hds : ((pop_node k nodes size).1).drop (size - 1)
          = nodes.getD k default :: nodes.drop size := by
        rw [hfst, show nodes.take k ++ (nodes.drop (k + 1)).take (size - 1 - k)
              ++ nodes.getD k default :: nodes.drop size
            = (nodes.take k ++ (nodes.drop (k + 1)).take (size - 1 - k))
              ++ nodes.getD k default :: nodes.drop size from by simp]
        exact List.drop_left' (by rw [List.length_append, hlenA, hlenS]; omega)
      rw [htk, hdk, hds]
      have htake : ((nodes.drop (k + 1)).take (size - 1 - k)
            ++ nodes.getD k default :: nodes.drop size).take (size - 1 - k)
          = (nodes.drop (k + 1)).take (size - 1 - k) := List.take_left' hlenS
      rw [htake, hn]
      simp only [List.filter_append, List.filter_cons, hc, decide_True, Bool.not_true,
        List.filter_nil, List.length_append, List.length_cons, List.length_nil,
        List.filter_singleton]
      rw [Prod.mk.injEq]
      constructor
      · simp [List.append_assoc]
        rw [show size - (k + 1) = size - 1 - k from by omega]
      · simp
        omega
    · -- the point at index k is far: it is skipped
      have hstep : associate_loop line eps2 (k + 1) (nodes, size)
          = associate_loop line eps2 k (nodes, size) := by
        simp only [associate_loop, hc, decide_False, if_false, ite_false]
      rw [hstep, ih _ _ (by omega) hs, hn]
      have hdk : (nodes.drop k).take (size - k)
          = nodes.getD k default :: (nodes.drop (k + 1)).take (size - (k + 1)) := by
        rw [List.drop_eq_getElem_cons hklen, List.getD_eq_getElem _ _ hklen,
          show size - k = (size - (k + 1)) + 1 from by omega, List.take_succ_cons]
      rw [hdk]
      simp only [List.filter_append, List.filter_singleton, hc, decide_False,
        Bool.not_false, if_true, if_false, List.length_append]
      rw [Prod.mk.injEq]
      constructor
      · simp [List.append_assoc]
      · simp

/-- C6: the ASSOCIATE scan pops exactly the active points whose squared
perpendicular distance (as computed by `dst2_to_line`) is at most
`proximity_epsilon²`: afterwards the active range is precisely the
in-order far points (hence every remaining point is strictly beyond the
threshold), the popped region `[newSize, size)` holds exactly the close
points, the former active range is merely permuted, the region at and
beyond `size` is untouched, and `dst2_to_line` is the formula
`(|−m·x + y − b|)² / (m² + 1)`. -/
theorem associate_scan_spec (line : line_t) (eps : ℚ) (nodes : List node_t) (size : Nat)
    (h : size ≤ nodes.length) :
    ((associate_loop line (eps * eps) size (nodes, size)).1).take
        (associate_loop line (eps * eps) size (nodes, size)).2
      = (nodes.take size).filter
          (fun n => !(dst2_to_line line n.x n.y ≤ eps * eps : Bool))
    ∧ (∀ p ∈ ((associate_loop line (eps * eps) size (nodes, size)).1).take
          (associate_loop line (eps * eps) size (nodes, size)).2,
        eps * eps < dst2_to_line line p.x p.y)
    ∧ (((associate_loop line (eps * eps) size (nodes, size)).1).drop
          (associate_loop line (eps * eps) size (nodes, size)).2).take
            (size - (associate_loop line (eps * eps) size (nodes, size)).2)
        = (nodes.take size).filter
            (fun n => (dst2_to_line line n.x n.y ≤ eps * eps : Bool))
    ∧ (((associate_loop line (eps * eps) size (nodes, size)).1).take size).Perm
        (nodes.take size)
    ∧ ((associate_loop line (eps * eps) size (nodes, size)).1).drop size
        = nodes.drop size
    ∧ (∀ x y : ℚ, dst2_to_line line x y
        = (|(-line.m * x) + y - line.b|) * (|(-line.m * x) + y - line.b|)
          / (line.m * line.m + 1)) := by
  have hspec := associate_loop_spec line (eps * eps) size nodes size le_rfl h
  have htksz : (nodes.take size).length = size := by simp; omega
  have hpart := length_filter_partition
    (fun n => (dst2_to_line line n.x n.y ≤ eps * eps : Bool)) (nodes.take size)
  have hC := List.length_filter_le
    (fun n => (dst2_to_line line n.x n.y ≤ eps * eps : Bool)) (nodes.take size)
  rw [htksz] at hC
  set F := (nodes.take size).filter
    (fun n => !(dst2_to_line line n.x n.y ≤ eps * eps : Bool)) with hF
  set C := (nodes.take size).filter
    (fun n => (dst2_to_line line n.x n.y ≤ eps * eps : Bool)) with hCdef
  have hFlen : F.length = size - C.length := by omega
  have hr1 : (associate_loop line (eps * eps) size (nodes, size)).1
      = F ++ C ++ nodes.drop size := by
    rw [hspec]
    simp
  have hr2 : (associate_loop line (eps * eps) size (nodes, size)).2
      = size - C.length := by
    rw [hspec]
  have hFC : (F ++ C).length = size := by
    rw [List.length_append]
    omega
  have ha : ((associate_loop line (eps * eps) size (nodes, size)).1).take
      (associate_loop line (eps * eps) size (nodes, size)).2 = F := by
    rw [hr1, hr2, List.append_assoc, ← hFlen]
    exact List.take_left' rfl
  refine ⟨ha, ?_, ?_, ?_, ?_, fun x y => rfl⟩
  · intro p hp
    rw [ha] at hp
    have := List.of_mem_filter hp
    simp only [Bool.not_eq_true', decide_eq_false_iff_not, not_le] at this
    exact this
  · rw [hr1, hr2, List.append_assoc]
    rw [show size - (size - C.length) = C.length from by omega, ← hFlen,
      List.drop_left' rfl]
    exact List.take_left' rfl
  · rw [hr1]
    rw [show F ++ C ++ nodes.drop size = (F ++ C) ++ nodes.drop size from by simp,
      List.take_left' hFC]
    have hperm := List.filter_append_perm
      (fun n => !(dst2_to_line line n.x n.y ≤ eps * eps : Bool)) (nodes.take size)
    have hnn : (nodes.take size).filter
        (fun n => !!(dst2_to_line line n.x n.y ≤ eps * eps : Bool)) = C := by
      apply List.filter_congr
      intro p _
      simp
    rw [hnn] at hperm
    exact hperm
  · rw [hr1]
    rw [show F ++ C ++ nodes.drop size = (F ++ C) ++ nodes.drop size from by simp,
      List.drop_left' hFC]

/-- Concrete array used to exercise the ASSOCIATE scan. -/
def wassoc : List node_t :=
  [{ x := 0, y := 0, angle := 0 }, { x := 1, y := 1, angle := 1 },
   { x := 5, y := 0, angle := 2 }, { x := 9, y := 9, angle := 9 }]

theorem associate_scan_spec_witness :
    ((associate_loop { m := 1, b := 0 } ((1 : ℚ)/10 * ((1 : ℚ)/10)) 3 (wassoc, 3)).1).take
        (associate_loop { m := 1, b := 0 } ((1 : ℚ)/10 * ((1 : ℚ)/10)) 3 (wassoc, 3)).2
      = (wassoc.take 3).filter
          (fun n => !(dst2_to_line { m := 1, b := 0 } n.x n.y ≤ (1 : ℚ)/10 * ((1 : ℚ)/10) : Bool))
    ∧ (∀ p ∈ ((associate_loop { m := 1, b := 0 } ((1 : ℚ)/10 * ((1 : ℚ)/10)) 3 (wassoc, 3)).1).take
          (associate_loop { m := 1, b := 0 } ((1 : ℚ)/10 * ((1 : ℚ)/10)) 3 (wassoc, 3)).2,
        (1 : ℚ)/10 * ((1 : ℚ)/10) < dst2_to_line { m := 1, b := 0 } p.x p.y)
    ∧ (((associate_loop { m := 1, b := 0 } ((1 : ℚ)/10 * ((1 : ℚ)/10)) 3 (wassoc, 3)).1).drop
          (associate_loop { m := 1, b := 0 } ((1 : ℚ)/10 * ((1 : ℚ)/10)) 3 (wassoc, 3)).2).take
            (3 - (associate_loop { m := 1, b := 0 } ((1 : ℚ)/10 * ((1 : ℚ)/10)) 3 (wassoc, 3)).2)
        = (wassoc.take 3).filter
            (fun n => (dst2_to_line { m := 1, b := 0 } n.x n.y ≤ (1 : ℚ)/10 * ((1 : ℚ)/10) : Bool))
    ∧ (((associate_loop { m := 1, b := 0 } ((1 : ℚ)/10 * ((1 : ℚ)/10)) 3 (wassoc, 3)).1).take 3).Perm
        (wassoc.take 3)
    ∧ ((associate_loop { m := 1, b := 0 } ((1 : ℚ)/10 * ((1 : ℚ)/10)) 3 (wassoc, 3)).1).drop 3
        = wassoc.drop 3
    ∧ (∀ x y : ℚ, dst2_to_line { m := 1, b := 0 } x y
        = (|(-(1 : ℚ) * x) + y - 0|) * (|(-(1 : ℚ) * x) + y - 0|) / ((1 : ℚ) * 1 + 1)) :=
  associate_scan_spec { m := 1, b := 0 } ((1 : ℚ)/10) wassoc 3 (by decide)

/-! ### The rollback selection sort -/

theorem getD_set_lt {l : List node_t} {m : Nat} (hm : m < l.length) (a : node_t) (n : Nat) :
    (l.set m a).getD n default = if m = n then a else l.getD n default := by
  by_cases h : n < l.length
  · rw [List.getD_eq_getElem _ _ (by simpa using h), List.getElem_set]
    split_ifs with he
    · rfl
    · rw [List.getD_eq_getElem _ _ h]
  · have hle : l.length ≤ n := le_of_not_lt h
    rw [List.getD_eq_default _ _ (by simpa using hle)]
    rw [if_neg (by omega), List.getD_eq_default _ _ hle]

theorem set_getD_self {l : List node_t} {m : Nat} (hm : m < l.length) :
    l.set m (l.getD m default) = l := by
  apply List.ext_getElem
  · simp
  · intro i hi hi'
    rw [List.getElem_set]
    split_ifs with he
    · subst he
      rw [List.getD_eq_getElem _ _ hm]
    · rfl

theorem swap_nodes_length (l : List node_t) (i j : Nat) :
    (swap_nodes l i j).length = l.length := by
  simp [swap_nodes]

theorem swap_nodes_getD {l : List node_t} {i j : Nat}
    (hi : i < l.length) (hj : j < l.length) (k : Nat) :
    (swap_nodes l i j).getD k default =
      if j = k then l.getD i default
      else if i = k then l.getD j default
      else l.getD k default := by
  show ((l.set i (l.getD j default)).set j (l.getD i default)).getD k default = _
  rw [getD_set_lt (by simpa using hj), getD_set_lt hi]

theorem swap_nodes_drop {l : List node_t} {i j m : Nat}
    (hi : i < m) (hj : j < m) :
    (swap_nodes l i j).drop m = l.drop m := by
  show ((l.set i (l.getD j default)).set j (l.getD i default)).drop m = _
  rw [List.drop_set, List.drop_set, if_pos hj, if_pos hi]

theorem cons_middle_swap (x y : node_t) (M B : List node_t) :
    (y :: (M ++ x :: B)).Perm (x :: (M ++ y :: B)) := by
  exact (List.Perm.cons y List.perm_middle).trans
    ((List.Perm.swap x y (M ++ B)).trans (List.Perm.cons x List.perm_middle.symm))

theorem swap_nodes_perm_lt {l : List node_t} {i j : Nat}
    (hlt : i < j) (hj : j < l.length) :
    (swap_nodes l i j).Perm l := by
  have hi : i < l.length := by omega
  · have hdi : l.drop i = l.getD i default :: l.drop (i + 1) := by
      rw [List.getD_eq_getElem _ _ hi]
      exact List.drop_eq_getElem_cons hi
    have hdm : l.drop (i + 1)
        = (l.drop (i + 1)).take (j - i - 1) ++ l.getD j default :: l.drop (j + 1) := by
      conv_lhs => rw [← List.take_append_drop (j - i - 1) (l.drop (i + 1))]
      congr 1
      rw [List.drop_drop, List.getD_eq_getElem _ _ hj,
        show i + 1 + (j - i - 1) = j from by omega]
      exact List.drop_eq_getElem_cons hj
    have hdecomp : l = l.take i
        ++ l.getD i default :: ((l.drop (i + 1)).take (j - i - 1)
          ++ l.getD j default :: l.drop (j + 1)) := by
      conv_lhs => rw [← List.take_append_drop i l, hdi, hdm]
    have hlenpre : (l.take i ++ l.getD j default :: (l.drop (i + 1)).take (j - i - 1)).length
        = j := by
      simp
      omega
    have hswap : swap_nodes l i j = (l.take i
        ++ l.getD j default :: (l.drop (i + 1)).take (j - i - 1))
        ++ l.getD i default :: l.drop (j + 1) := by
      show (l.set i (l.getD j default)).set j (l.getD i default) = _
      rw [List.set_eq_take_cons_drop _ hi]
      conv_lhs => rw [hdm]
      rw [show l.take i ++ l.getD j default
            :: ((l.drop (i + 1)).take (j - i - 1) ++ l.getD j default :: l.drop (j + 1))
          = (l.take i ++ l.getD j default :: (l.drop (i + 1)).take (j - i - 1))
            ++ l.getD j default :: l.drop (j + 1) from by simp]
      rw [List.set_append, if_neg (by rw [hlenpre]; omega), hlenpre]
      rw [show j - j = 0 from by omega]
      rfl
    rw [hswap]
    conv_rhs => rw [hdecomp]
    rw [show l.take i ++ l.getD j default :: (l.drop (i + 1)).take (j - i - 1)
        = l.take i ++ (l.getD j default :: (l.drop (i + 1)).take (j - i - 1)) from rfl]
    rw [List.append_assoc, List.cons_append]
    refine List.Perm.append_left _ ?_
    exact cons_middle_swap (l.getD i default) (l.getD j default) _ _

theorem swap_nodes_perm {l : List node_t} {i j : Nat}
    (hi : i < l.length) (hj : j < l.length) :
    (swap_nodes l i j).Perm l := by
  rcases lt_trichotomy i j with hlt | heq | hgt
  · exact swap_nodes_perm_lt hlt hj
  · subst heq
    show ((l.set i (l.getD i default)).set i (l.getD i default)).Perm l
    rw [List.set_set, set_getD_self hi]
  · show ((l.set i (l.getD j default)).set j (l.getD i default)).Perm l
    rw [List.set_comm _ _ _ (by omega)]
    exact swap_nodes_perm_lt hgt hi

theorem select_max_loop_spec (nodes : List node_t) : ∀ (fuel j select : Nat),
    (select_max_loop nodes select j fuel = select
      ∨ (j ≤ select_max_loop nodes select j fuel
          ∧ select_max_loop nodes select j fuel < j + fuel))
    ∧ (nodes.getD select default).angle
        ≤ (nodes.getD (select_max_loop nodes select j fuel) default).angle
    ∧ (∀ m, j ≤ m → m < j + fuel →
        (nodes.getD m default).angle
          ≤ (nodes.getD (select_max_loop nodes select j fuel) default).angle) := by
  intro fuel
  induction fuel with
  | zero =>
    intro j select
    exact ⟨Or.inl rfl, le_rfl, fun m h1 h2 => absurd h2 (by omega)⟩
  | succ f ih =>
    intro j select
    by_cases hc : (nodes.getD select default).angle < (nodes.getD j default).angle
    · have hstep : select_max_loop nodes select j (f + 1)
          = select_max_loop nodes j (j + 1) f := by
        simp only [select_max_loop, hc, if_true, ite_true]
      obtain ⟨hr, hmax, hall⟩ := ih (j + 1) j
      rw [hstep]
      refine ⟨?_, (le_of_lt hc).trans hmax, ?_⟩
      · rcases hr with h | h
        · right; omega
        · right; omega
      · intro m h1 h2
        rcases eq_or_lt_of_le h1 with he | hlt2
        · rw [← he]; exact hmax
        · exact hall m (by omega) (by omega)
    · have hstep : select_max_loop nodes select j (f + 1)
          = select_max_loop nodes select (j + 1) f := by
        simp only [select_max_loop, hc, if_false, ite_false]
      obtain ⟨hr, hmax, hall⟩ := ih (j + 1) select
      rw [hstep]
      refine ⟨?_, hmax, ?_⟩
      · rcases hr with h | h
        · left; exact h
        · right; omega
      · intro m h1 h2
        rcases eq_or_lt_of_le h1 with he | hlt2
        · rw [← he]; exact (le_of_not_lt hc).trans hmax
        · exact hall m (by omega) (by omega)

theorem select_max_le (nodes : List node_t) (i : Nat) :
    select_max nodes i ≤ i
    ∧ ∀ m, m ≤ i →
        (nodes.getD m default).angle
          ≤ (nodes.getD (select_max nodes i) default).angle := by
  obtain ⟨hr, hmax, hall⟩ := select_max_loop_spec nodes i 1 0
  constructor
  · rcases hr with h | h
    · show select_max_loop nodes 0 1 i ≤ i
      omega
    · show select_max_loop nodes 0 1 i ≤ i
      omega
  · intro m hm
    rcases Nat.eq_zero_or_pos m with h0 | hpos
    · rw [h0]; exact hmax
    · exact hall m (by omega) (by omega)

theorem restore_loop_length : ∀ (i : Nat) (nodes : List node_t),
    (restore_loop nodes i).length = nodes.length := by
  intro i
  induction i with
  | zero => intro nodes; rfl
  | succ i ih =>
    intro nodes
    rw [restore_loop, ih, swap_nodes_length]

theorem restore_loop_perm : ∀ (i : Nat) (nodes : List node_t), i < nodes.length →
    (restore_loop nodes i).Perm nodes := by
  intro i
  induction i with
  | zero => intro nodes _; exact List.Perm.refl nodes
  | succ i ih =>
    intro nodes h
    rw [restore_loop]
    have hs : select_max nodes (i + 1) ≤ i + 1 := (select_max_le nodes (i + 1)).1
    refine (ih _ ?_).trans (swap_nodes_perm h (by omega))
    rw [swap_nodes_length]
    omega

theorem restore_loop_drop : ∀ (i : Nat) (nodes : List node_t) (m : Nat), i < m →
    (restore_loop nodes i).drop m = nodes.drop m := by
  intro i
  induction i with
  | zero => intro nodes m _; rfl
  | succ i ih =>
    intro nodes m h
    rw [restore_loop, ih _ _ (by omega)]
    have hs : select_max nodes (i + 1) ≤ i + 1 := (select_max_le nodes (i + 1)).1
    exact swap_nodes_drop (by omega) (by omega)

theorem restore_loop_sorted_aux (original : Nat) : ∀ (i : Nat) (nodes : List node_t),
    original ≤ nodes.length → i < original →
    (∀ k m, k < m → i < m → m < original →
      (nodes.getD k default).angle ≤ (nodes.getD m default).angle) →
    ∀ k m, k < m → m < original →
      ((restore_loop nodes i).getD k default).angle
        ≤ ((restore_loop nodes i).getD m default).angle := by
  intro i
  induction i with
  | zero =>
    intro nodes _ _ hinv k m hkm hm
    exact hinv k m hkm (by omega) hm
  | succ i ih =>
    intro nodes hlen hi hinv k m hkm hm
    rw [restore_loop]
    obtain ⟨hsle, hsmax⟩ := select_max_le nodes (i + 1)
    have hslen : select_max nodes (i + 1) < nodes.length := by omega
    have hilen : i + 1 < nodes.length := by omega
    have hg := swap_nodes_getD (l := nodes) hilen hslen
    refine ih _ ?_ ?_ ?_ k m hkm hm
    · rw [swap_nodes_length]; exact hlen
    · omega
    · intro a b hab hib hbo
      by_cases hbi : b = i + 1
      · have hgb : ((swap_nodes nodes (i + 1) (select_max nodes (i + 1))).getD b
            default).angle = (nodes.getD (select_max nodes (i + 1)) default).angle := by
          rw [hg b]
          by_cases hsb : select_max nodes (i + 1) = b
          · rw [if_pos hsb, hsb, hbi]
          · rw [if_neg hsb, if_pos (by omega)]
        have hga : ((swap_nodes nodes (i + 1) (select_max nodes (i + 1))).getD a
            default).angle ≤ (nodes.getD (select_max nodes (i + 1)) default).angle := by
          rw [hg a]
          by_cases hsa : select_max nodes (i + 1) = a
          · rw [if_pos hsa]; exact hsmax (i + 1) le_rfl
          · rw [if_neg hsa, if_neg (by omega)]; exact hsmax a (by omega)
        rw [hgb]
        exact hga
      · have hb2 : i + 1 < b := by omega
        have hgb : ((swap_nodes nodes (i + 1) (select_max nodes (i + 1))).getD b
            default).angle = (nodes.getD b default).angle := by
          rw [hg b, if_neg (by omega), if_neg (by omega)]
        rw [hg a, hgb]
        by_cases hsa : select_max nodes (i + 1) = a
        · rw [if_pos hsa]
          exact hinv (i + 1) b hb2 (by omega) hbo
        · rw [if_neg hsa]
          by_cases hia : i + 1 = a
          · rw [if_pos hia]
            exact hinv (select_max nodes (i + 1)) b (by omega) (by omega) hbo
          · rw [if_neg hia]
            exact hinv a b hab (by omega) hbo

theorem pairwise_take_of_getD {l : List node_t} {b : Nat} (hb : b ≤ l.length)
    (h : ∀ k m, k < m → m < b →
      (l.getD k default).angle ≤ (l.getD m default).angle) :
    (l.take b).Pairwise (fun a c => a.angle ≤ c.angle) := by
  rw [List.pairwise_iff_getElem]
  intro u v hu hv huv
  have hu' : u < b := by simp at hu; omega
  have hv' : v < b := by simp at hv; omega
  have hul : u < l.length := by omega
  have hvl : v < l.length := by omega
  have hres := h u v huv hv'
  rw [List.getD_eq_getElem _ _ hul, List.getD_eq_getElem _ _ hvl] at hres
  rw [List.getElem_take, List.getElem_take]
  exact hres

/-- Everything `restore_trial` guarantees: size is reset to
`original_size`, the array is permuted (only reordered), nothing at or
beyond `original_size` moves, and the rebuilt active range
`[0, original_size)` is sorted by ascending angle. -/
theorem restore_trial_spec {nodes : List node_t} {original : Nat} (ref : Nat)
    (hlen : original ≤ nodes.length) :
    (restore_trial nodes ref original).2 = original
    ∧ ((restore_trial nodes ref original).1).Perm nodes
    ∧ ((restore_trial nodes ref original).1).drop original = nodes.drop original
    ∧ (((restore_trial nodes ref original).1).take original).Pairwise
        (fun a c => a.angle ≤ c.angle) := by
  rcases Nat.eq_zero_or_pos original with h0 | hpos
  · subst h0
    exact ⟨rfl, List.Perm.refl _, rfl, by simp⟩
  · have hi : original - 1 < nodes.length := by omega
    refine ⟨rfl, restore_loop_perm _ _ hi, restore_loop_drop _ _ _ (by omega), ?_⟩
    apply pairwise_take_of_getD
    · show original ≤ (restore_loop nodes (original - 1)).length
      rw [restore_loop_length]; exact hlen
    · intro k m hkm hm
      rcases Nat.eq_zero_or_pos (original - 1) with hz | hp
    -- if original = 1 the loop is a no-op and the single-element range is sorted
      · have : m = 0 := by omega
        omega
      · exact restore_loop_sorted_aux original (original - 1) nodes hlen (by omega)
          (fun a c hac h1 h2 => absurd (And.intro h1 h2) (by omega)) k m hkm hm

/-! ### Per-trial invariants -/

theorem perm_take_of_perm_drop {l l' : List node_t} {b : Nat} (hp : l'.Perm l)
    (hd : l'.drop b = l.drop b) : (l'.take b).Perm (l.take b) := by
  have key : (l'.take b ++ l'.drop b).Perm (l.take b ++ l'.drop b) := by
    rw [List.take_append_drop b l']
    conv_rhs => rw [hd, List.take_append_drop b l]
    exact hp
  exact (List.perm_append_right_iff _).mp key

theorem perm_of_take_drop {l l' : List node_t} {b : Nat}
    (hp : (l'.take b).Perm (l.take b)) (hd : l'.drop b = l.drop b) : l'.Perm l := by
  conv_lhs => rw [← List.take_append_drop b l']
  conv_rhs => rw [← List.take_append_drop b l]
  rw [hd]
  exact hp.append_right _

theorem drop_mono_eq {l l' : List node_t} {b c : Nat} (h : l'.drop b = l.drop b)
    (hbc : b ≤ c) : l'.drop c = l.drop c := by
  have h1 : (l'.drop b).drop (c - b) = (l.drop b).drop (c - b) := by rw [h]
  rw [List.drop_drop, List.drop_drop, show b + (c - b) = c from by omega] at h1
  exact h1

theorem grow_step_inv (sd ra : ℚ) (i : Nat) (ref : Nat) (nodes : List node_t) (size : Nat)
    (h1 : ref < size) (h2 : size ≤ nodes.length) :
    (grow_step sd ra i (ref, nodes, size)).1 < (grow_step sd ra i (ref, nodes, size)).2.2
    ∧ (grow_step sd ra i (ref, nodes, size)).2.2 ≤ size
    ∧ ((grow_step sd ra i (ref, nodes, size)).2.1).length = nodes.length
    ∧ ((grow_step sd ra i (ref, nodes, size)).2.1).Perm nodes
    ∧ ((grow_step sd ra i (ref, nodes, size)).2.1).drop size = nodes.drop size
    ∧ (((grow_step sd ra i (ref, nodes, size)).2.1).take
        (grow_step sd ra i (ref, nodes, size)).2.2).Sublist (nodes.take size) := by
  have hsz : 0 < size := by omega
  simp only [grow_step]
  set pick := if i % 2 = 0 then (ref + size - 1) % size else (ref + 1) % size with hpickdef
  have hpick : pick < size := by
    rw [hpickdef]
    split_ifs <;> exact Nat.mod_lt _ hsz
  by_cases hcond : pick ≠ ref ∧ |(nodes.getD pick default).angle - ra| ≤ sd
  · rw [if_pos hcond]
    have hne : pick ≠ ref := hcond.1
    dsimp only
    refine ⟨?_, ?_, pop_node_length hpick h2, pop_node_perm hpick h2,
      pop_node_drop hpick h2, ?_⟩
    · rw [pop_node_snd]
      split_ifs with hlt <;> omega
    · rw [pop_node_snd]
      omega
    · rw [pop_node_snd]
      exact pop_node_active_sublist hpick h2
  · rw [if_neg hcond]
    exact ⟨h1, le_rfl, rfl, List.Perm.refl _, rfl, List.Sublist.refl _⟩

theorem grow_loop_inv (sd ra : ℚ) : ∀ (fuel i ref : Nat) (nodes : List node_t) (size : Nat),
    ref < size → size ≤ nodes.length →
    (grow_loop sd ra i fuel (ref, nodes, size)).1
        < (grow_loop sd ra i fuel (ref, nodes, size)).2.2
    ∧ (grow_loop sd ra i fuel (ref, nodes, size)).2.2 ≤ size
    ∧ ((grow_loop sd ra i fuel (ref, nodes, size)).2.1).length = nodes.length
    ∧ ((grow_loop sd ra i fuel (ref, nodes, size)).2.1).Perm nodes
    ∧ ((grow_loop sd ra i fuel (ref, nodes, size)).2.1).drop size = nodes.drop size
    ∧ (((grow_loop sd ra i fuel (ref, nodes, size)).2.1).take
        (grow_loop sd ra i fuel (ref, nodes, size)).2.2).Sublist (nodes.take size) := by
  intro fuel
  induction fuel with
  | zero =>
    intro i ref nodes size h1 h2
    exact ⟨h1, le_rfl, rfl, List.Perm.refl _, rfl, List.Sublist.refl _⟩
  | succ f ih =>
    intro i ref nodes size h1 h2
    obtain ⟨hs1, hs2, hs3, hs4, hs5, hs6⟩ := grow_step_inv sd ra i ref nodes size h1 h2
    rcases hgs : grow_step sd ra i (ref, nodes, size) with ⟨ref₂, nodes₂, size₂⟩
    rw [hgs] at hs1 hs2 hs3 hs4 hs5 hs6
    dsimp only at hs1 hs2 hs3 hs4 hs5 hs6
    have hstep : grow_loop sd ra i (f + 1) (ref, nodes, size)
        = grow_loop sd ra (i + 1) f (ref₂, nodes₂, size₂) := by
      show grow_loop sd ra (i + 1) f (grow_step sd ra i (ref, nodes, size)) = _
      rw [hgs]
    rw [hstep]
    obtain ⟨hi1, hi2, hi3, hi4, hi5, hi6⟩ := ih (i + 1) ref₂ nodes₂ size₂ hs1 (by omega)
    refine ⟨hi1, by omega, by rw [hi3, hs3], hi4.trans hs4, ?_, hi6.trans hs6⟩
    have hd := drop_mono_eq hi5 hs2
    rw [hd, hs5]

theorem associate_loop_inv (line : line_t) (eps2 : ℚ) (nodes : List node_t) (size : Nat)
    (h : size ≤ nodes.length) :
    (associate_loop line eps2 size (nodes, size)).2 ≤ size
    ∧ ((associate_loop line eps2 size (nodes, size)).1).length = nodes.length
    ∧ ((associate_loop line eps2 size (nodes, size)).1).Perm nodes
    ∧ ((associate_loop line eps2 size (nodes, size)).1).drop size = nodes.drop size
    ∧ (((associate_loop line eps2 size (nodes, size)).1).take
        (associate_loop line eps2 size (nodes, size)).2).Sublist (nodes.take size) := by
  have hspec := associate_loop_spec line eps2 size nodes size le_rfl h
  have htksz : (nodes.take size).length = size := by simp; omega
  have hpart := length_filter_partition
    (fun n => (dst2_to_line line n.x n.y ≤ eps2 : Bool)) (nodes.take size)
  set F := (nodes.take size).filter
    (fun n => !(dst2_to_line line n.x n.y ≤ eps2 : Bool)) with hF
  set C := (nodes.take size).filter
    (fun n => (dst2_to_line line n.x n.y ≤ eps2 : Bool)) with hC
  have hr1 : (associate_loop line eps2 size (nodes, size)).1
      = F ++ C ++ nodes.drop size := by
    rw [hspec]
    simp
  have hr2 : (associate_loop line eps2 size (nodes, size)).2 = size - C.length := by
    rw [hspec]
  have hFC : (F ++ C).length = size := by
    rw [List.length_append]
    omega
  have hperm : ((associate_loop line eps2 size (nodes, size)).1).Perm nodes := by
    rw [hr1]
    have hfc : (F ++ C).Perm (nodes.take size) := by
      have hp := List.filter_append_perm
        (fun n => !(dst2_to_line line n.x n.y ≤ eps2 : Bool)) (nodes.take size)
      have hnn : (nodes.take size).filter
          (fun n => !!(dst2_to_line line n.x n.y ≤ eps2 : Bool)) = C := by
        apply List.filter_congr
        intro p _
        simp
      rw [hnn] at hp
      exact hp
    have hap := hfc.append_right (nodes.drop size)
    rw [List.take_append_drop] at hap
    exact hap
  refine ⟨by rw [hr2]; omega, hperm.length_eq, hperm, ?_, ?_⟩
  · rw [hr1, List.drop_left' hFC]
  · have hFlen : F.length = size - C.length := by omega
    rw [hr1, hr2, List.append_assoc, List.take_left' hFlen]
    exact List.filter_sublist _

theorem trial_pre_spec (cfg : Config) (r : Nat) (nodes : List node_t) (size : Nat)
    (hsz : 0 < size) (hlen : size ≤ nodes.length) :
    (trial_pre cfg r nodes size).2.2 < size
    ∧ ((trial_pre cfg r nodes size).2.1).length = nodes.length
    ∧ ((trial_pre cfg r nodes size).2.1).Perm nodes
    ∧ ((trial_pre cfg r nodes size).2.1).drop size = nodes.drop size
    ∧ (((trial_pre cfg r nodes size).2.1).take (trial_pre cfg r nodes size).2.2).Sublist
        (nodes.take size) := by
  have href : r % size < size := Nat.mod_lt _ hsz
  obtain ⟨hg1, hg2, hg3, hg4, hg5, hg6⟩ := grow_loop_inv cfg.sample_deviation
    ((nodes.getD (r % size) default).angle) cfg.sample_size 0 (r % size) nodes size href hlen
  simp only [trial_pre]
  set g := grow_loop cfg.sample_deviation
    ((nodes.getD (r % size) default).angle) 0 cfg.sample_size (r % size, nodes, size) with hgdef
  have hglen : g.2.2 ≤ g.2.1.length := by rw [hg3]; omega
  refine ⟨?_, ?_, (pop_node_perm hg1 hglen).trans hg4, ?_, ?_⟩
  · rw [pop_node_snd]
    omega
  · rw [pop_node_length hg1 hglen, hg3]
  · have hd := drop_mono_eq (pop_node_drop hg1 hglen) hg2
    rw [hd, hg5]
  · rw [pop_node_snd]
    exact (pop_node_active_sublist hg1 hglen).trans hg6

theorem trial_mid_spec (cfg : Config) (r : Nat) (nodes : List node_t) (size : Nat)
    (hsz : 0 < size) (hlen : size ≤ nodes.length) :
    (trial_mid cfg r nodes size).2 < size
    ∧ ((trial_mid cfg r nodes size).1).length = nodes.length
    ∧ ((trial_mid cfg r nodes size).1).Perm nodes
    ∧ ((trial_mid cfg r nodes size).1).drop size = nodes.drop size
    ∧ (((trial_mid cfg r nodes size).1).take (trial_mid cfg r nodes size).2).Sublist
        (nodes.take size) := by
  obtain ⟨hp1, hp2, hp3, hp4, hp5⟩ := trial_pre_spec cfg r nodes size hsz hlen
  rcases hfit : trial_fit1 cfg r nodes size with _ | line
  · have hmid : trial_mid cfg r nodes size
        = ((trial_pre cfg r nodes size).2.1, (trial_pre cfg r nodes size).2.2) := by
      simp only [trial_mid, hfit]
    rw [hmid]
    exact ⟨hp1, hp2, hp3, hp4, hp5⟩
  · have hmid : trial_mid cfg r nodes size
        = associate_loop line (cfg.proximity_epsilon * cfg.proximity_epsilon)
            (trial_pre cfg r nodes size).2.2
            ((trial_pre cfg r nodes size).2.1, (trial_pre cfg r nodes size).2.2) := by
      simp only [trial_mid, hfit]
    obtain ⟨ha1, ha2, ha3, ha4, ha5⟩ := associate_loop_inv line
      (cfg.proximity_epsilon * cfg.proximity_epsilon)
      (trial_pre cfg r nodes size).2.1 (trial_pre cfg r nodes size).2.2
      (by rw [hp2]; omega)
    rw [hmid]
    refine ⟨by omega, by rw [ha2, hp2], ha3.trans hp3, ?_, ha5.trans hp5⟩
    have hd := drop_mono_eq ha4 (le_of_lt hp1)
    rw [hd, hp4]

theorem run_trial_inv (cfg : Config) (r : Nat) (nodes : List node_t) (size : Nat)
    (hsz : 0 < size) (hlen : size ≤ nodes.length) :
    ((run_trial cfg r nodes size).1).length = nodes.length
    ∧ (run_trial cfg r nodes size).2.1 ≤ size
    ∧ ((run_trial cfg r nodes size).1).Perm nodes
    ∧ ((run_trial cfg r nodes size).1).drop size = nodes.drop size := by
  obtain ⟨hm1, hm2, hm3, hm4, hm5⟩ := trial_mid_spec cfg r nodes size hsz hlen
  rcases hres : trial_result cfg r nodes size with _ | line
  · have hrun : run_trial cfg r nodes size
        = ((restore_trial (trial_mid cfg r nodes size).1 (trial_pre cfg r nodes size).1
            size).1,
          (restore_trial (trial_mid cfg r nodes size).1 (trial_pre cfg r nodes size).1
            size).2, none) := by
      simp only [run_trial, hres]
    obtain ⟨hr1, hr2, hr3, hr4⟩ := @restore_trial_spec (trial_mid cfg r nodes size).1 size
      (trial_pre cfg r nodes size).1 (by rw [hm2]; omega)
    rw [hrun]
    exact ⟨hr2.length_eq.trans hm2, by rw [hr1], hr2.trans hm3, by rw [hr3, hm4]⟩
  · have hrun : run_trial cfg r nodes size
        = ((trial_mid cfg r nodes size).1, (trial_mid cfg r nodes size).2, some line) := by
      simp only [run_trial, hres]
    rw [hrun]
    exact ⟨hm2, le_of_lt hm1, hm3, hm4⟩

theorem run_trial_sorted (cfg : Config) (r : Nat) (nodes : List node_t) (size : Nat)
    (hsz : 0 < size) (hlen : size ≤ nodes.length)
    (hs : (nodes.take size).Pairwise (fun a c => a.angle ≤ c.angle)) :
    (((run_trial cfg r nodes size).1).take (run_trial cfg r nodes size).2.1).Pairwise
      (fun a c => a.angle ≤ c.angle) := by
  obtain ⟨hm1, hm2, hm3, hm4, hm5⟩ := trial_mid_spec cfg r nodes size hsz hlen
  rcases hres : trial_result cfg r nodes size with _ | line
  · have hrun : run_trial cfg r nodes size
        = ((restore_trial (trial_mid cfg r nodes size).1 (trial_pre cfg r nodes size).1
            size).1,
          (restore_trial (trial_mid cfg r nodes size).1 (trial_pre cfg r nodes size).1
            size).2, none) := by
      simp only [run_trial, hres]
    obtain ⟨hr1, hr2, hr3, hr4⟩ := @restore_trial_spec (trial_mid cfg r nodes size).1 size
      (trial_pre cfg r nodes size).1 (by rw [hm2]; omega)
    rw [hrun]
    rw [show ((restore_trial (trial_mid cfg r nodes size).1
          (trial_pre cfg r nodes size).1 size).1,
        (restore_trial (trial_mid cfg r nodes size).1
          (trial_pre cfg r nodes size).1 size).2, (none : Option line_t)).2.1
      = size from hr1]
    exact hr4
  · have hrun : run_trial cfg r nodes size
        = ((trial_mid cfg r nodes size).1, (trial_mid cfg r nodes size).2, some line) := by
      simp only [run_trial, hres]
    rw [hrun]
    exact List.Pairwise.sublist hm5 hs

/-- C2: after a failed (rolled-back) trial the active size is reset to the
pre-trial size, the active range `[0, size)` is a permutation of its
pre-trial contents, it is sorted ascending by angle, and nothing at or
beyond the pre-trial size has moved. -/
theorem rollback_spec (cfg : Config) (r : Nat) (nodes : List node_t) (size : Nat)
    (hsz : 0 < size) (hlen : size ≤ nodes.length)
    (hfail : (run_trial cfg r nodes size).2.2 = none) :
    (run_trial cfg r nodes size).2.1 = size
    ∧ (((run_trial cfg r nodes size).1).take size).Perm (nodes.take size)
    ∧ (((run_trial cfg r nodes size).1).take size).Pairwise
        (fun a c => a.angle ≤ c.angle)
    ∧ ((run_trial cfg r nodes size).1).drop size = nodes.drop size := by
  obtain ⟨hm1, hm2, hm3, hm4, hm5⟩ := trial_mid_spec cfg r nodes size hsz hlen
  rcases hres : trial_result cfg r nodes size with _ | line
  · have hrun : run_trial cfg r nodes size
        = ((restore_trial (trial_mid cfg r nodes size).1 (trial_pre cfg r nodes size).1
            size).1,
          (restore_trial (trial_mid cfg r nodes size).1 (trial_pre cfg r nodes size).1
            size).2, none) := by
      simp only [run_trial, hres]
    obtain ⟨hr1, hr2, hr3, hr4⟩ := @restore_trial_spec (trial_mid cfg r nodes size).1 size
      (trial_pre cfg r nodes size).1 (by rw [hm2]; omega)
    rw [hrun]
    have hdrop : ((restore_trial (trial_mid cfg r nodes size).1
        (trial_pre cfg r nodes size).1 size).1).drop size = nodes.drop size := by
      rw [hr3, hm4]
    exact ⟨hr1, perm_take_of_perm_drop (hr2.trans hm3) hdrop, hr4, hdrop⟩
  · have hrun : (run_trial cfg r nodes size).2.2 = some line := by
      simp only [run_trial, hres]
    rw [hrun] at hfail
    exact absurd hfail (by simp)

/-- A configuration whose consensus threshold no trial on four points can
meet; every trial under it fails and is rolled back. -/
def wcfg : Config :=
  { max_trials := 1, sample_size := 0, sample_deviation := 0,
    proximity_epsilon := 0, line_consensus := 5 }

theorem rollback_spec_witness :
    (run_trial wcfg 0 wpop 3).2.1 = 3
    ∧ (((run_trial wcfg 0 wpop 3).1).take 3).Perm (wpop.take 3)
    ∧ (((run_trial wcfg 0 wpop 3).1).take 3).Pairwise (fun a c => a.angle ≤ c.angle)
    ∧ ((run_trial wcfg 0 wpop 3).1).drop 3 = wpop.drop 3 :=
  rollback_spec wcfg 0 wpop 3 (by decide) (by decide) (by decide)

/-! ### The trial loop -/

theorem compute_loop_inv (cfg : Config) (rng : Nat → Nat) : ∀ (d : Nat)
    (nodes : List node_t) (size tc : Nat) (lines : List line_t),
    cfg.max_trials - tc ≤ d → size ≤ nodes.length →
    ((compute_loop cfg rng nodes size tc lines).1).length = nodes.length
    ∧ (compute_loop cfg rng nodes size tc lines).2.1 ≤ size
    ∧ ((compute_loop cfg rng nodes size tc lines).1).Perm nodes
    ∧ ((compute_loop cfg rng nodes size tc lines).1).drop size = nodes.drop size
    ∧ ((nodes.take size).Pairwise (fun a c => a.angle ≤ c.angle) →
        (((compute_loop cfg rng nodes size tc lines).1).take
          (compute_loop cfg rng nodes size tc lines).2.1).Pairwise
            (fun a c => a.angle ≤ c.angle))
    ∧ (compute_loop cfg rng nodes size tc lines).2.2.1 ≤ tc + (cfg.max_trials - tc)
    ∧ ((compute_loop cfg rng nodes size tc lines).2.2.2).length
        ≤ lines.length + (cfg.max_trials - tc) := by
  intro d
  induction d with
  | zero =>
    intro nodes size tc lines hd hlen
    rw [compute_loop, if_neg (by omega)]
    refine ⟨rfl, le_rfl, List.Perm.refl _, rfl, fun hs => hs, ?_, ?_⟩ <;> dsimp only <;> omega
  | succ d ih =>
    intro nodes size tc lines hd hlen
    by_cases hguard : 0 < size ∧ tc < cfg.max_trials
    · have hunf : compute_loop cfg rng nodes size tc lines
          = compute_loop cfg rng (run_trial cfg (rng tc) nodes size).1
              (run_trial cfg (rng tc) nodes size).2.1 (tc + 1)
              (lines ++ (match (run_trial cfg (rng tc) nodes size).2.2 with
                | some l => [l] | none => [])) := by
        rw [compute_loop, if_pos hguard]
      rw [hunf]
      obtain ⟨ht1, ht2, ht3, ht4⟩ := run_trial_inv cfg (rng tc) nodes size hguard.1 hlen
      obtain ⟨hi1, hi2, hi3, hi4, hi5, hi6, hi7⟩ := ih (run_trial cfg (rng tc) nodes size).1
        (run_trial cfg (rng tc) nodes size).2.1 (tc + 1)
        (lines ++ (match (run_trial cfg (rng tc) nodes size).2.2 with
          | some l => [l] | none => []))
        (by omega) (by rw [ht1]; omega)
      refine ⟨hi1.trans ht1, by omega, hi3.trans ht3, ?_, ?_, by omega, ?_⟩
      · have hdrop := drop_mono_eq hi4 ht2
        rw [hdrop, ht4]
      · intro hs
        exact hi5 (run_trial_sorted cfg (rng tc) nodes size hguard.1 hlen hs)
      · have hlines : (lines ++ (match (run_trial cfg (rng tc) nodes size).2.2 with
            | some l => [l] | none => [])).length ≤ lines.length + 1 := by
          rcases (run_trial cfg (rng tc) nodes size).2.2 with _ | l <;> simp
        omega
    · rw [compute_loop, if_neg hguard]
      refine ⟨rfl, le_rfl, List.Perm.refl _, rfl, fun hs => hs, ?_, ?_⟩ <;> dsimp only <;> omega

/-- C1: the first `size` array entries are only ever permuted — after any
single trial (whatever its outcome) and after a whole `compute` call the
multiset of the first `size` points is unchanged, and entries at indices
≥ `size` are untouched. -/
theorem permutation_invariance (cfg : Config) (rng : Nat → Nat) (r : Nat)
    (nodes : List node_t) (size : Nat) (hsz : 0 < size) (hlen : size ≤ nodes.length) :
    (((run_trial cfg r nodes size).1).take size).Perm (nodes.take size)
    ∧ ((run_trial cfg r nodes size).1).drop size = nodes.drop size
    ∧ (((compute cfg rng nodes size).1).take size).Perm (nodes.take size)
    ∧ ((compute cfg rng nodes size).1).drop size = nodes.drop size := by
  obtain ⟨ht1, ht2, ht3, ht4⟩ := run_trial_inv cfg r nodes size hsz hlen
  obtain ⟨hc1, hc2, hc3, hc4, hc5, hc6, hc7⟩ :=
    compute_loop_inv cfg rng cfg.max_trials nodes size 0 [] (by omega) hlen
  exact ⟨perm_take_of_perm_drop ht3 ht4, ht4,
    perm_take_of_perm_drop hc3 hc4, hc4⟩

theorem permutation_invariance_witness :
    (((run_trial wcfg 0 wpop 3).1).take 3).Perm (wpop.take 3)
    ∧ ((run_trial wcfg 0 wpop 3).1).drop 3 = wpop.drop 3
    ∧ (((compute wcfg (fun _ => 0) wpop 3).1).take 3).Perm (wpop.take 3)
    ∧ ((compute wcfg (fun _ => 0) wpop 3).1).drop 3 = wpop.drop 3 :=
  permutation_invariance wcfg (fun _ => 0) 0 wpop 3 (by decide) (by decide)

/-- C8: provided the caller supplies an active range sorted ascending by
angle, it is sorted again after every trial — an accepted trial keeps a
sorted sublist, a failed trial is re-sorted by the rollback — and hence
sorted at the start of every trial and when the loop exits. -/
theorem sorted_invariant (cfg : Config) (rng : Nat → Nat) (r : Nat)
    (nodes : List node_t) (size : Nat) (hsz : 0 < size) (hlen : size ≤ nodes.length)
    (hsorted : (nodes.take size).Pairwise (fun a c => a.angle ≤ c.angle)) :
    (((run_trial cfg r nodes size).1).take (run_trial cfg r nodes size).2.1).Pairwise
        (fun a c => a.angle ≤ c.angle)
    ∧ (((compute_loop cfg rng nodes size 0 []).1).take
        (compute_loop cfg rng nodes size 0 []).2.1).Pairwise
          (fun a c => a.angle ≤ c.angle) := by
  obtain ⟨hc1, hc2, hc3, hc4, hc5, hc6, hc7⟩ :=
    compute_loop_inv cfg rng cfg.max_trials nodes size 0 [] (by omega) hlen
  exact ⟨run_trial_sorted cfg r nodes size hsz hlen hsorted, hc5 hsorted⟩

theorem sorted_invariant_witness :
    (((run_trial wcfg 0 wpop 3).1).take (run_trial wcfg 0 wpop 3).2.1).Pairwise
        (fun a c => a.angle ≤ c.angle)
    ∧ (((compute_loop wcfg (fun _ => 0) wpop 3 0 []).1).take
        (compute_loop wcfg (fun _ => 0) wpop 3 0 []).2.1).Pairwise
          (fun a c => a.angle ≤ c.angle) :=
  sorted_invariant wcfg (fun _ => 0) 0 wpop 3 (by decide) (by decide)
    (by simp [wpop, List.pairwise_cons])

/-- C9: the trial loop always terminates after at most `max_trials`
trials (the counter advances every iteration and bounds the loop), it
yields at most one line per trial, and with `max_trials = 0` the result
sequence is empty and the array is returned untouched. -/
theorem termination_spec (cfg : Config) (rng : Nat → Nat) (nodes : List node_t)
    (size : Nat) (hlen : size ≤ nodes.length) :
    (compute_loop cfg rng nodes size 0 []).2.2.1 ≤ cfg.max_trials
    ∧ ((compute cfg rng nodes size).2).length ≤ cfg.max_trials
    ∧ (cfg.max_trials = 0 → compute cfg rng nodes size = (nodes, [])) := by
  obtain ⟨hc1, hc2, hc3, hc4, hc5, hc6, hc7⟩ :=
    compute_loop_inv cfg rng cfg.max_trials nodes size 0 [] (by omega) hlen
  refine ⟨by omega, ?_, ?_⟩
  · show ((compute_loop cfg rng nodes size 0 []).2.2.2).length ≤ cfg.max_trials
    simp only [List.length_nil] at hc7
    omega
  · intro h0
    show (((compute_loop cfg rng nodes size 0 []).1,
      (compute_loop cfg rng nodes size 0 []).2.2.2) : List node_t × List line_t)
        = (nodes, [])
    rw [compute_loop, if_neg (by omega)]

/-- A configuration with a zero trial budget. -/
def wcfg0 : Config :=
  { max_trials := 0, sample_size := 0, sample_deviation := 0,
    proximity_epsilon := 0, line_consensus := 5 }

theorem termination_spec_witness :
    (compute_loop wcfg0 (fun _ => 0) wpop 3 0 []).2.2.1 ≤ 0
    ∧ ((compute wcfg0 (fun _ => 0) wpop 3).2).length ≤ 0
    ∧ compute wcfg0 (fun _ => 0) wpop 3 = (wpop, []) :=
  ⟨(termination_spec wcfg0 (fun _ => 0) wpop 3 (by decide)).1,
   (termination_spec wcfg0 (fun _ => 0) wpop 3 (by decide)).2.1,
   (termination_spec wcfg0 (fun _ => 0) wpop 3 (by decide)).2.2 rfl⟩

/-- C3: a trial appends a line exactly when the seed fit succeeded, the
popped count `originalTrialSize − size` reaches `line_consensus`, and the
final refit succeeded; on any failure the trial state is rolled back by
`restore_trial` with no line appended, and the trial counter advances by
one in either case. -/
theorem trial_accept_iff (cfg : Config) (rng : Nat → Nat) (r : Nat)
    (nodes : List node_t) (size tc : Nat) (lines : List line_t) :
    (∀ l : line_t, (run_trial cfg r nodes size).2.2 = some l ↔
      ((trial_fit1 cfg r nodes size).isSome
        ∧ cfg.line_consensus ≤ size - (trial_mid cfg r nodes size).2
        ∧ compute_reg_line (trial_mid cfg r nodes size).2 size
            (trial_mid cfg r nodes size).1 = some l))
    ∧ ((run_trial cfg r nodes size).2.2 = none →
        run_trial cfg r nodes size
          = ((restore_trial (trial_mid cfg r nodes size).1
              (trial_pre cfg r nodes size).1 size).1,
            (restore_trial (trial_mid cfg r nodes size).1
              (trial_pre cfg r nodes size).1 size).2, none))
    ∧ (0 < size → tc < cfg.max_trials →
        compute_loop cfg rng nodes size tc lines
          = compute_loop cfg rng (run_trial cfg (rng tc) nodes size).1
              (run_trial cfg (rng tc) nodes size).2.1 (tc + 1)
              (lines ++ (match (run_trial cfg (rng tc) nodes size).2.2 with
                | some l => [l] | none => []))) := by
  refine ⟨?_, ?_, ?_⟩
  · intro l
    rcases hfit : trial_fit1 cfg r nodes size with _ | line0
    · have hres : trial_result cfg r nodes size = none := by
        simp only [trial_result, hfit]
      have hrun : (run_trial cfg r nodes size).2.2 = none := by
        simp only [run_trial, hres]
      simp [hrun, hfit]
    · have hres : trial_result cfg r nodes size
          = if cfg.line_consensus ≤ size - (trial_mid cfg r nodes size).2
            then compute_reg_line (trial_mid cfg r nodes size).2 size
              (trial_mid cfg r nodes size).1
            else none := by
        simp only [trial_result, hfit]
      by_cases hcons : cfg.line_consensus ≤ size - (trial_mid cfg r nodes size).2
      · rw [if_pos hcons] at hres
        rcases hrefit : compute_reg_line (trial_mid cfg r nodes size).2 size
            (trial_mid cfg r nodes size).1 with _ | l0
        · rw [hrefit] at hres
          have hrun : (run_trial cfg r nodes size).2.2 = none := by
            simp only [run_trial, hres]
          simp [hrun, hfit, hrefit]
        · rw [hrefit] at hres
          have hrun : (run_trial cfg r nodes size).2.2 = some l0 := by
            simp only [run_trial, hres]
          simp [hrun, hfit, hrefit, hcons]
      · rw [if_neg hcons] at hres
        have hrun : (run_trial cfg r nodes size).2.2 = none := by
          simp only [run_trial, hres]
        simp [hrun, hfit, hcons]
  · intro hnone
    rcases hres : trial_result cfg r nodes size with _ | l0
    · simp only [run_trial, hres]
    · have : (run_trial cfg r nodes size).2.2 = some l0 := by
        simp only [run_trial, hres]
      rw [this] at hnone
      exact absurd hnone (by simp)
  · intro h1 h2
    rw [compute_loop, if_pos ⟨h1, h2⟩]

theorem trial_accept_iff_witness :
    run_trial wcfg 0 wpop 3
      = ((restore_trial (trial_mid wcfg 0 wpop 3).1 (trial_pre wcfg 0 wpop 3).1 3).1,
        (restore_trial (trial_mid wcfg 0 wpop 3).1 (trial_pre wcfg 0 wpop 3).1 3).2, none)
    ∧ compute_loop wcfg (fun _ => 0) wpop 3 0 []
        = compute_loop wcfg (fun _ => 0) (run_trial wcfg 0 wpop 3).1
            (run_trial wcfg 0 wpop 3).2.1 1
            ([] ++ (match (run_trial wcfg 0 wpop 3).2.2 with
              | some l => [l] | none => [])) :=
  ⟨(trial_accept_iff wcfg (fun _ => 0) 0 wpop 3 0 []).2.1 (by decide),
   (trial_accept_iff wcfg (fun _ => 0) 0 wpop 3 0 []).2.2 (by decide) (by decide)⟩

end Ransac
